import Mathlib

/-!
# Shallow embedding of the chip8-emulator core (src/main.cpp)

The `Chip8` structure mirrors `struct Chip8` of the source: byte-valued
fields are natural numbers kept below 256 by the emulator's own writes, the
16-bit fields (`pc`, `i_addr_reg`, stack entries, `program_size`) below
65536, and every array of the source is a total function from addresses to
values, so out-of-range accesses of the original (which are undefined
behaviour in C++) simply read or write the function outside the array's
index range.  `decode_instruction` translates the opcode switch body by
body; the C library PRNG consulted by opcode `CXNN` is passed in as the
explicit input `rng`.  `execute_cycle` and `read_program_to_mem` translate
the remaining member functions; file I/O is abstracted into the byte list
handed to the loader.
-/

/-- Single-key update of a function standing for a byte/word array. -/
def upd (f : Nat → Nat) (k v : Nat) : Nat → Nat :=
  fun n => if n = k then v else f n

/-- Single-pixel update of the two-dimensional framebuffer. -/
def pixupd (f : Nat → Nat → Nat) (a b v : Nat) : Nat → Nat → Nat :=
  fun p q => if p = a ∧ q = b then v else f p q

/-- Machine state, mirroring `struct Chip8` of src/main.cpp. -/
structure Chip8 where
  mem : Nat → Nat
  pixels : Nat → Nat → Nat
  v_reg : Nat → Nat
  delay_timer : Nat
  sound_timer : Nat
  keys : Nat → Nat
  sp : Nat
  stack : Nat → Nat
  pc : Nat
  i_addr_reg : Nat
  program_size : Nat
  cycle_count : Nat

/-- The 12-bit address operand `((opcode1 & 0x0F) << 8) | opcode2`. -/
def nnnOf (op1 op2 : Nat) : Nat := ((op1 % 16) <<< 8) ||| op2

/-- One iteration of the inner (width) loop of the `DXYN` draw: XOR the
top bit of `bits` into the pixel at column `(j + x) % 64`, row
`(i + y) % 32`, recording a 1-to-0 transition in `VF`. -/
def drawCol (x y i j bits : Nat) (c : Chip8) : Chip8 :=
  let current_pixel := bits / 128
  let px := (j + x) % 64
  let py := (i + y) % 32
  let old_pixel := c.pixels px py
  let display_pixel := current_pixel ^^^ old_pixel
  { c with
      pixels := pixupd c.pixels px py display_pixel,
      v_reg := if old_pixel = 1 ∧ display_pixel = 0 then upd c.v_reg 15 1 else c.v_reg }

/-- The inner (width) loop of `DXYN`: remaining iteration count is the
third numeric argument; `bits` is shifted left (as a byte) each step. -/
def drawRow (x y i : Nat) : Nat → Nat → Nat → Chip8 → Chip8
  | _bits, _j, 0, c => c
  | bits, j, k + 1, c => drawRow x y i ((bits * 2) % 256) (j + 1) k (drawCol x y i j bits c)

/-- The outer (height) loop of `DXYN`: row `i` uses the sprite byte
`mem[i_addr_reg + i]`. -/
def drawRows (x y : Nat) : Nat → Nat → Chip8 → Chip8
  | _i, 0, c => c
  | i, k + 1, c => drawRows x y (i + 1) k (drawRow x y i (c.mem (c.i_addr_reg + i)) 0 8 c)

/-- Opcode `DXYN`: reset `VF`, draw the sprite, advance `pc` by 2. -/
def execDraw (op1 op2 : Nat) (c : Chip8) : Chip8 :=
  let x := c.v_reg (op1 % 16)
  let y := c.v_reg (op2 / 16)
  let pixel_height := op2 % 16
  let c1 : Chip8 := { c with v_reg := upd c.v_reg 15 0 }
  let c2 := drawRows x y 0 pixel_height c1
  { c2 with pc := (c2.pc + 2) % 65536 }

/-- Group `0x0`: `00E0` clears the framebuffer, `00EE` pops the stack into
`pc`; anything else falls through the `NOT_REACHED()` branch unchanged. -/
def execGroup0 (op1 op2 : Nat) (c : Chip8) : Chip8 :=
  if op1 = 0 ∧ op2 = 0xE0 then
    { c with pixels := fun _ _ => 0, pc := (c.pc + 2) % 65536 }
  else if op1 = 0 ∧ op2 = 0xEE then
    let sp' := (c.sp + 255) % 256
    { c with sp := sp', pc := c.stack sp' }
  else c

/-- Group `0x8`: register-to-register ALU operations, dispatching on the
low nibble of `opcode2`.  The flag register is written before the result
register, exactly as in the source. -/
def execGroup8 (op1 op2 : Nat) (c : Chip8) : Chip8 :=
  let x := op1 % 16
  let y := op2 / 16
  match op2 % 16 with
  | 0x0 => { c with v_reg := upd c.v_reg x (c.v_reg y), pc := (c.pc + 2) % 65536 }
  | 0x1 => { c with v_reg := upd c.v_reg x (c.v_reg x ||| c.v_reg y), pc := (c.pc + 2) % 65536 }
  | 0x2 => { c with v_reg := upd c.v_reg x (c.v_reg x &&& c.v_reg y), pc := (c.pc + 2) % 65536 }
  | 0x3 => { c with v_reg := upd c.v_reg x (c.v_reg x ^^^ c.v_reg y), pc := (c.pc + 2) % 65536 }
  | 0x4 =>
    let res := c.v_reg x + c.v_reg y
    let v1 := upd c.v_reg 15 (if res > 255 then 1 else 0)
    { c with v_reg := upd v1 x (res % 256), pc := (c.pc + 2) % 65536 }
  | 0x5 =>
    let v1 := upd c.v_reg 15 (if c.v_reg x > c.v_reg y then 1 else 0)
    { c with v_reg := upd v1 x ((v1 x + 256 - v1 y % 256) % 256), pc := (c.pc + 2) % 65536 }
  | 0x6 =>
    let v1 := upd c.v_reg 15 (c.v_reg x &&& 1)
    { c with v_reg := upd v1 x (v1 x / 2), pc := (c.pc + 2) % 65536 }
  | 0x7 =>
    let v1 := upd c.v_reg 15 (if c.v_reg y > c.v_reg x then 1 else 0)
    { c with v_reg := upd v1 x ((v1 y + 256 - v1 x % 256) % 256), pc := (c.pc + 2) % 65536 }
  | 0xE =>
    let v1 := upd c.v_reg 15 (if c.v_reg x &&& 128 > 1 then 1 else 0)
    { c with v_reg := upd v1 x (v1 x * 2 % 256), pc := (c.pc + 2) % 65536 }
  | _ => c

/-- Group `0xE`: key-state conditional skips. -/
def execGroupE (op1 op2 : Nat) (c : Chip8) : Chip8 :=
  let x := op1 % 16
  match op2 with
  | 0x9E =>
    let p1 := if c.keys (c.v_reg x) = 1 then (c.pc + 2) % 65536 else c.pc
    { c with pc := (p1 + 2) % 65536 }
  | 0xA1 =>
    let p1 := if c.keys (c.v_reg x) = 0 then (c.pc + 2) % 65536 else c.pc
    { c with pc := (p1 + 2) % 65536 }
  | _ => c

/-- The key scan of opcode `FX0A`: `true` when some entry of the 16-byte
key buffer, starting at index `i` with the given remaining count, is
nonzero.  The loop body of the source does not depend on which key hit. -/
def anyKeyPressed (keys : Nat → Nat) : Nat → Nat → Bool
  | _i, 0 => false
  | i, k + 1 => if keys i ≠ 0 then true else anyKeyPressed keys (i + 1) k

/-- The `FX55` loop: copy `v[0..count-1]` into memory at `i_addr + i`. -/
def dumpRegs (v : Nat → Nat) (iAddr : Nat) : Nat → Nat → (Nat → Nat) → (Nat → Nat)
  | _i, 0, mem => mem
  | i, k + 1, mem => dumpRegs v iAddr (i + 1) k (upd mem (iAddr + i) (v i))

/-- The `FX65` loop: copy memory at `i_addr + i` into `v[0..count-1]`. -/
def loadRegs (mem : Nat → Nat) (iAddr : Nat) : Nat → Nat → (Nat → Nat) → (Nat → Nat)
  | _i, 0, v => v
  | i, k + 1, v => loadRegs mem iAddr (i + 1) k (upd v i (mem (iAddr + i)))

/-- Group `0xF`: timers, key wait, index arithmetic, BCD and register
block transfers, dispatching on `opcode2`. -/
def execGroupF (op1 op2 : Nat) (c : Chip8) : Chip8 :=
  let x := op1 % 16
  match op2 with
  | 0x07 => { c with v_reg := upd c.v_reg x c.delay_timer, pc := (c.pc + 2) % 65536 }
  | 0x0A =>
    if anyKeyPressed c.keys 0 16 then
      { c with v_reg := upd c.v_reg x 1, pc := (c.pc + 2) % 65536 }
    else c
  | 0x15 => { c with delay_timer := c.v_reg x, pc := (c.pc + 2) % 65536 }
  | 0x18 => { c with sound_timer := c.v_reg x, pc := (c.pc + 2) % 65536 }
  | 0x1E => { c with i_addr_reg := (c.i_addr_reg + c.v_reg x) % 65536, pc := (c.pc + 2) % 65536 }
  | 0x29 => { c with i_addr_reg := c.v_reg x * 5, pc := (c.pc + 2) % 65536 }
  | 0x33 =>
    let value := c.v_reg x
    let m1 := upd c.mem c.i_addr_reg (value / 100)
    let m2 := upd m1 (c.i_addr_reg + 1) (value % 100 / 10)
    let m3 := upd m2 (c.i_addr_reg + 2) (value % 10)
    { c with mem := m3, pc := (c.pc + 2) % 65536 }
  | 0x55 => { c with
      mem := dumpRegs c.v_reg c.i_addr_reg 0 (x + 1) c.mem,
      pc := (c.pc + 2) % 65536 }
  | 0x65 => { c with
      v_reg := loadRegs c.mem c.i_addr_reg 0 (x + 1) c.v_reg,
      pc := (c.pc + 2) % 65536 }
  | _ => c

/-- The body of the opcode switch, dispatching on the high nibble `g` of
`opcode1` (computed once, as in the source `switch`). -/
def decodeGroup (rng op1 op2 g : Nat) (c : Chip8) : Chip8 :=
  match g with
  | 0x0 => execGroup0 op1 op2 c
  | 0x1 => { c with pc := nnnOf op1 op2 }
  | 0x2 => { c with
      stack := upd c.stack c.sp ((c.pc + 2) % 65536),
      sp := (c.sp + 1) % 256,
      pc := nnnOf op1 op2 }
  | 0x3 =>
    let p1 := if c.v_reg (op1 % 16) = op2 then (c.pc + 2) % 65536 else c.pc
    { c with pc := (p1 + 2) % 65536 }
  | 0x4 =>
    let p1 := if c.v_reg (op1 % 16) ≠ op2 then (c.pc + 2) % 65536 else c.pc
    { c with pc := (p1 + 2) % 65536 }
  | 0x5 =>
    let p1 := if c.v_reg (op1 % 16) = c.v_reg (op2 / 16) then (c.pc + 2) % 65536 else c.pc
    { c with pc := (p1 + 2) % 65536 }
  | 0x6 => { c with v_reg := upd c.v_reg (op1 % 16) op2, pc := (c.pc + 2) % 65536 }
  | 0x7 => { c with
      v_reg := upd c.v_reg (op1 % 16) ((c.v_reg (op1 % 16) + op2) % 256),
      pc := (c.pc + 2) % 65536 }
  | 0x8 => execGroup8 op1 op2 c
  | 0x9 =>
    let p1 := if c.v_reg (op1 % 16) ≠ c.v_reg (op2 / 16) then (c.pc + 2) % 65536 else c.pc
    { c with pc := (p1 + 2) % 65536 }
  | 0xA => { c with i_addr_reg := nnnOf op1 op2, pc := (c.pc + 2) % 65536 }
  | 0xB => { c with pc := ((c.v_reg 0 + nnnOf op1 op2) % 65536 + 2) % 65536 }
  | 0xC => { c with
      v_reg := upd c.v_reg (op1 % 16) ((rng % 256) &&& op2),
      pc := (c.pc + 2) % 65536 }
  | 0xD => execDraw op1 op2 c
  | 0xE => execGroupE op1 op2 c
  | 0xF => execGroupF op1 op2 c
  | _ => c

/-- `Chip8::decode_instruction`, with the two opcode bytes passed
explicitly (they are `op_buffer[0]` and `op_buffer[1]`) and the C library
PRNG value consulted by `CXNN` passed as `rng`. -/
def decode_instruction (rng op1 op2 : Nat) (c : Chip8) : Chip8 :=
  decodeGroup rng op1 op2 (op1 / 16) c

/-- `Chip8::execute_cycle`: decode the opcode at `pc`, bump the cycle
counter, return the new state together with the returned counter value. -/
def execute_cycle (rng : Nat) (c : Chip8) : Chip8 × Nat :=
  let c' := decode_instruction rng (c.mem c.pc) (c.mem (c.pc + 1)) c
  let cc := (c'.cycle_count + 1) % 18446744073709551616
  ({ c' with cycle_count := cc }, cc)

/-- Driver loop performing `n` consecutive cycles with PRNG input 0. -/
def runSteps : Nat → Chip8 → Chip8
  | 0, c => c
  | n + 1, c => runSteps n (execute_cycle 0 c).1

/-- The built-in font table (the `fonts` array), 16 glyphs of 5 bytes. -/
def fontsList : List Nat :=
  [0xF0, 0x90, 0x90, 0x90, 0xF0,
   0x20, 0x60, 0x20, 0x20, 0x70,
   0xF0, 0x10, 0xF0, 0x80, 0xF0,
   0xF0, 0x10, 0xF0, 0x10, 0xF0,
   0x90, 0x90, 0xF0, 0x10, 0x10,
   0xF0, 0x80, 0xF0, 0x10, 0xF0,
   0xF0, 0x80, 0xF0, 0x90, 0xF0,
   0xF0, 0x10, 0x20, 0x40, 0x40,
   0xF0, 0x90, 0xF0, 0x90, 0xF0,
   0xF0, 0x90, 0xF0, 0x10, 0xF0,
   0xF0, 0x90, 0xF0, 0x90, 0x90,
   0xE0, 0x90, 0xE0, 0x90, 0xE0,
   0xF0, 0x80, 0x80, 0x80, 0xF0,
   0xE0, 0x90, 0x90, 0x90, 0xE0,
   0xF0, 0x80, 0xF0, 0x80, 0xF0,
   0xF0, 0x80, 0xF0, 0x80, 0x80]

/-- `Chip8::read_program_to_mem` on an already-opened file, abstracted to
the byte sequence it reads: write the font table at addresses 0..79, set
`program_size` to the file length truncated to 16 bits (`ftell` stored
into a `u16`), set `pc = 0x200` and copy that many program bytes starting
at 0x200 — with no size check whatsoever. -/
def read_program_to_mem (bytes : List Nat) (c : Chip8) : Chip8 :=
  let memF : Nat → Nat := fun a => if a < 80 then fontsList.getD a 0 else c.mem a
  let ps := bytes.length % 65536
  let memP : Nat → Nat :=
    fun a => if 512 ≤ a ∧ a < 512 + ps then (bytes.getD (a - 512) 0) % 256 else memF a
  { c with mem := memP, pc := 512, program_size := ps }

/-- A freshly constructed machine (all members zero-initialised except
`pc = 0x200`). -/
def initC8 : Chip8 :=
  { mem := fun _ => 0, pixels := fun _ _ => 0, v_reg := fun _ => 0,
    delay_timer := 0, sound_timer := 0, keys := fun _ => 0,
    sp := 0, stack := fun _ => 0, pc := 0x200, i_addr_reg := 0,
    program_size := 0, cycle_count := 0 }

/-- A fresh machine whose memory holds the single instruction `b1 b2` at
the entry point 0x200. -/
def oneInstr (b1 b2 : Nat) : Chip8 :=
  { initC8 with mem := fun a => if a = 512 then b1 else if a = 513 then b2 else 0 }

/-- Bit `t` (most significant first) of the sprite byte `b`, as produced
by the successive left shifts of the draw loop. -/
def spriteBit (b t : Nat) : Nat := b * 2 ^ t % 256 / 128

/-- Sample machine for draw claims: `D001` at the entry point, `I = 0x300`
and the sprite byte `0xA0` there. -/
def cdrawEx : Chip8 :=
  { initC8 with
      mem := fun a =>
        if a = 512 then 0xD0 else if a = 513 then 0x01 else if a = 768 then 0xA0 else 0,
      i_addr_reg := 768 }

/-- Sample machine with a nonzero cycle counter, for the loader claims. -/
def c8ex : Chip8 := { initC8 with cycle_count := 5 }

theorem upd_self (f : Nat → Nat) (k v : Nat) : upd f k v k = v := by
  simp [upd]

theorem upd_ne (f : Nat → Nat) (k v n : Nat) (h : n ≠ k) : upd f k v n = f n := by
  simp [upd, h]

theorem upd_upd_same (f : Nat → Nat) (k v w : Nat) : upd (upd f k v) k w = upd f k w := by
  funext n
  by_cases h : n = k <;> simp [upd, h]

theorem pixupd_self (f : Nat → Nat → Nat) (a b v : Nat) : pixupd f a b v a b = v := by
  simp [pixupd]

theorem pixupd_ne (f : Nat → Nat → Nat) (a b v p q : Nat) (h : ¬(p = a ∧ q = b)) :
    pixupd f a b v p q = f p q := by
  simp only [pixupd, if_neg h]

theorem spriteBit_zero (b : Nat) (hb : b < 256) : spriteBit b 0 = b / 128 := by
  simp [spriteBit, Nat.mod_eq_of_lt hb]

theorem spriteBit_succ (b t : Nat) : spriteBit (b * 2 % 256) t = spriteBit b (t + 1) := by
  unfold spriteBit
  congr 1
  rw [Nat.mod_mul_mod]
  ring_nf

theorem spriteBit_le_one (b t : Nat) : spriteBit b t ≤ 1 := by
  unfold spriteBit
  generalize b * 2 ^ t = a
  omega

/-- Full characterisation of one sprite row (the inner loop of `DXYN`)
with `k` iterations left at column offset `j`: the non-display fields are
untouched, each remaining column is XOR-composited with the matching bit
of `bits`, all other pixels are untouched, and `VF` is forced to 1 exactly
when some remaining column hits an on-pixel with an on-bit. -/
theorem drawRow_spec (x y i : Nat) :
    ∀ (k j bits : Nat) (c : Chip8), k + j ≤ 8 → bits < 256 →
      ((drawRow x y i bits j k c).mem = c.mem
        ∧ (drawRow x y i bits j k c).pc = c.pc
        ∧ (drawRow x y i bits j k c).sp = c.sp
        ∧ (drawRow x y i bits j k c).stack = c.stack
        ∧ (drawRow x y i bits j k c).i_addr_reg = c.i_addr_reg
        ∧ (drawRow x y i bits j k c).delay_timer = c.delay_timer
        ∧ (drawRow x y i bits j k c).sound_timer = c.sound_timer
        ∧ (drawRow x y i bits j k c).keys = c.keys
        ∧ (drawRow x y i bits j k c).program_size = c.program_size
        ∧ (drawRow x y i bits j k c).cycle_count = c.cycle_count)
      ∧ (∀ t, t < k →
          (drawRow x y i bits j k c).pixels ((j + t + x) % 64) ((i + y) % 32)
            = spriteBit bits t ^^^ c.pixels ((j + t + x) % 64) ((i + y) % 32))
      ∧ (∀ a b, (∀ t, t < k → ¬(a = (j + t + x) % 64 ∧ b = (i + y) % 32)) →
          (drawRow x y i bits j k c).pixels a b = c.pixels a b)
      ∧ ((∃ t, t < k ∧ c.pixels ((j + t + x) % 64) ((i + y) % 32) = 1 ∧
            spriteBit bits t ^^^ c.pixels ((j + t + x) % 64) ((i + y) % 32) = 0) →
          (drawRow x y i bits j k c).v_reg = upd c.v_reg 15 1)
      ∧ ((∀ t, t < k → ¬(c.pixels ((j + t + x) % 64) ((i + y) % 32) = 1 ∧
            spriteBit bits t ^^^ c.pixels ((j + t + x) % 64) ((i + y) % 32) = 0)) →
          (drawRow x y i bits j k c).v_reg = c.v_reg) := by
  intro k
  induction k with
  | zero =>
    intro j bits c _ _
    refine ⟨⟨rfl, rfl, rfl, rfl, rfl, rfl, rfl, rfl, rfl, rfl⟩, ?_, ?_, ?_, ?_⟩
    · intro t ht; omega
    · intro a b _; rfl
    · rintro ⟨t, ht, -⟩; omega
    · intro _; rfl
  | succ k ih =>
    intro j bits c h8 hb
    have hstep : drawRow x y i bits j (k + 1) c
        = drawRow x y i (bits * 2 % 256) (j + 1) k (drawCol x y i j bits c) := rfl
    obtain ⟨hfields, hhit, hframe, hvf1, hvf0⟩ :=
      ih (j + 1) (bits * 2 % 256) (drawCol x y i j bits c) (by omega)
        (Nat.mod_lt _ (by norm_num))
    have hc1pix : (drawCol x y i j bits c).pixels
        = pixupd c.pixels ((j + x) % 64) ((i + y) % 32)
            (bits / 128 ^^^ c.pixels ((j + x) % 64) ((i + y) % 32)) := rfl
    have hc1v : (drawCol x y i j bits c).v_reg
        = if c.pixels ((j + x) % 64) ((i + y) % 32) = 1 ∧
              bits / 128 ^^^ c.pixels ((j + x) % 64) ((i + y) % 32) = 0
          then upd c.v_reg 15 1 else c.v_reg := rfl
    have hcol0 : ∀ t, t < k → (j + 1 + t + x) % 64 ≠ (j + x) % 64 := by
      intro t ht
      intro hcontra
      omega
    have hc1pix_rest : ∀ t, t < k →
        (drawCol x y i j bits c).pixels ((j + 1 + t + x) % 64) ((i + y) % 32)
          = c.pixels ((j + 1 + t + x) % 64) ((i + y) % 32) := by
      intro t ht
      rw [hc1pix, pixupd_ne]
      intro hcontra
      exact hcol0 t ht hcontra.1
    refine ⟨?_, ?_, ?_, ?_, ?_⟩
    · rw [hstep]
      exact ⟨hfields.1, hfields.2.1, hfields.2.2.1, hfields.2.2.2.1, hfields.2.2.2.2.1,
        hfields.2.2.2.2.2.1, hfields.2.2.2.2.2.2.1, hfields.2.2.2.2.2.2.2.1,
        hfields.2.2.2.2.2.2.2.2.1, hfields.2.2.2.2.2.2.2.2.2⟩
    · -- the hit positions
      intro t ht
      rw [hstep]
      match t with
      | 0 =>
        have hpos : j + 0 + x = j + x := by omega
        rw [hpos]
        have huntouched : ∀ t', t' < k →
            ¬((j + x) % 64 = (j + 1 + t' + x) % 64 ∧ (i + y) % 32 = (i + y) % 32) := by
          intro t' ht' hcontra
          exact hcol0 t' ht' hcontra.1.symm
        rw [hframe _ _ huntouched, hc1pix, pixupd_self, spriteBit_zero bits hb]
      | s + 1 =>
        have hpos : j + (s + 1) + x = j + 1 + s + x := by omega
        rw [hpos]
        have hs : s < k := by omega
        rw [hhit s hs, hc1pix_rest s hs, spriteBit_succ]
    · -- the frame
      intro a b hab
      rw [hstep]
      have hab' : ∀ t, t < k → ¬(a = (j + 1 + t + x) % 64 ∧ b = (i + y) % 32) := by
        intro t htk hcontra
        have : j + 1 + t + x = j + (t + 1) + x := by omega
        exact hab (t + 1) (by omega) ⟨by rw [hcontra.1, this], hcontra.2⟩
      rw [hframe a b hab', hc1pix, pixupd_ne]
      intro hcontra
      have : j + 0 + x = j + x := by omega
      exact hab 0 (by omega) ⟨by rw [hcontra.1, this], hcontra.2⟩
    · -- VF forced to 1
      rintro ⟨t, ht, hp1, hp0⟩
      rw [hstep]
      have hrec : ∀ t', t' < k →
          ((drawCol x y i j bits c).pixels ((j + 1 + t' + x) % 64) ((i + y) % 32) = 1 ∧
            spriteBit (bits * 2 % 256) t' ^^^
              (drawCol x y i j bits c).pixels ((j + 1 + t' + x) % 64) ((i + y) % 32) = 0
            ↔ (c.pixels ((j + (t' + 1) + x) % 64) ((i + y) % 32) = 1 ∧
              spriteBit bits (t' + 1) ^^^ c.pixels ((j + (t' + 1) + x) % 64) ((i + y) % 32) = 0)) := by
        intro t' ht'
        have hpos : j + (t' + 1) + x = j + 1 + t' + x := by omega
        rw [hpos, hc1pix_rest t' ht', spriteBit_succ]
      match t with
      | 0 =>
        have hpos : j + 0 + x = j + x := by omega
        rw [hpos] at hp1 hp0
        rw [spriteBit_zero bits hb] at hp0
        have hcond : (drawCol x y i j bits c).v_reg = upd c.v_reg 15 1 := by
          rw [hc1v, if_pos ⟨hp1, hp0⟩]
        by_cases hex : ∃ t', t' < k ∧
            (drawCol x y i j bits c).pixels ((j + 1 + t' + x) % 64) ((i + y) % 32) = 1 ∧
            spriteBit (bits * 2 % 256) t' ^^^
              (drawCol x y i j bits c).pixels ((j + 1 + t' + x) % 64) ((i + y) % 32) = 0
        · rw [hvf1 hex, hcond, upd_upd_same]
        · rw [hvf0, hcond]
          intro t' ht' hcontra
          exact hex ⟨t', ht', hcontra⟩
      | s + 1 =>
        have hs : s < k := by omega
        have hrec' := (hrec s hs).mpr ⟨hp1, hp0⟩
        rw [hvf1 ⟨s, hs, hrec'⟩]
        rw [hc1v]
        by_cases hcond0 : c.pixels ((j + x) % 64) ((i + y) % 32) = 1 ∧
            bits / 128 ^^^ c.pixels ((j + x) % 64) ((i + y) % 32) = 0
        · rw [if_pos hcond0, upd_upd_same]
        · rw [if_neg hcond0]
    · -- VF untouched
      intro hall
      rw [hstep]
      have hcond0 : (drawCol x y i j bits c).v_reg = c.v_reg := by
        rw [hc1v, if_neg]
        intro hcontra
        have hpos : j + 0 + x = j + x := by omega
        have := hall 0 (by omega)
        rw [hpos, spriteBit_zero bits hb] at this
        exact this hcontra
      rw [hvf0, hcond0]
      intro t' ht' hcontra
      have hpos : j + (t' + 1) + x = j + 1 + t' + x := by omega
      rw [hc1pix_rest t' ht', spriteBit_succ, ← hpos] at hcontra
      exact hall (t' + 1) (by omega) hcontra

/-- Full characterisation of the outer (height) loop of `DXYN` with `k`
rows left starting at row `i`: row `t` of the remaining sprite is read
from `mem[i_addr_reg + i + t]` and XOR-composited at row `(i + t + y) % 32`,
every pixel outside the footprint is untouched, and `VF` is forced to 1
exactly when some drawn bit lands on an on-pixel with an on-bit. -/
theorem drawRows_spec (x y : Nat) :
    ∀ (k i : Nat) (c : Chip8), k ≤ 16 →
      (∀ t, t < k → c.mem (c.i_addr_reg + (i + t)) < 256) →
      ((drawRows x y i k c).mem = c.mem
        ∧ (drawRows x y i k c).pc = c.pc
        ∧ (drawRows x y i k c).sp = c.sp
        ∧ (drawRows x y i k c).stack = c.stack
        ∧ (drawRows x y i k c).i_addr_reg = c.i_addr_reg
        ∧ (drawRows x y i k c).delay_timer = c.delay_timer
        ∧ (drawRows x y i k c).sound_timer = c.sound_timer
        ∧ (drawRows x y i k c).keys = c.keys
        ∧ (drawRows x y i k c).program_size = c.program_size
        ∧ (drawRows x y i k c).cycle_count = c.cycle_count)
      ∧ (∀ t j, t < k → j < 8 →
          (drawRows x y i k c).pixels ((j + x) % 64) ((i + t + y) % 32)
            = spriteBit (c.mem (c.i_addr_reg + (i + t))) j ^^^
                c.pixels ((j + x) % 64) ((i + t + y) % 32))
      ∧ (∀ a b, (∀ t j, t < k → j < 8 → ¬(a = (j + x) % 64 ∧ b = (i + t + y) % 32)) →
          (drawRows x y i k c).pixels a b = c.pixels a b)
      ∧ ((∃ t, t < k ∧ ∃ j, j < 8 ∧ c.pixels ((j + x) % 64) ((i + t + y) % 32) = 1 ∧
            spriteBit (c.mem (c.i_addr_reg + (i + t))) j ^^^
              c.pixels ((j + x) % 64) ((i + t + y) % 32) = 0) →
          (drawRows x y i k c).v_reg = upd c.v_reg 15 1)
      ∧ ((∀ t j, t < k → j < 8 → ¬(c.pixels ((j + x) % 64) ((i + t + y) % 32) = 1 ∧
            spriteBit (c.mem (c.i_addr_reg + (i + t))) j ^^^
              c.pixels ((j + x) % 64) ((i + t + y) % 32) = 0)) →
          (drawRows x y i k c).v_reg = c.v_reg) := by
  intro k
  induction k with
  | zero =>
    intro i c _ _
    refine ⟨⟨rfl, rfl, rfl, rfl, rfl, rfl, rfl, rfl, rfl, rfl⟩, ?_, ?_, ?_, ?_⟩
    · intro t j ht _; omega
    · intro a b _; rfl
    · rintro ⟨t, ht, -⟩; omega
    · intro _; rfl
  | succ k ih =>
    intro i c h16 hmem
    have hB : c.mem (c.i_addr_reg + i) < 256 := by
      have := hmem 0 (by omega)
      rwa [Nat.add_zero] at this
    have hstep : drawRows x y i (k + 1) c
        = drawRows x y (i + 1) k (drawRow x y i (c.mem (c.i_addr_reg + i)) 0 8 c) := rfl
    obtain ⟨innerFields, innerHit, innerFrame, innerVF1, innerVF0⟩ :=
      drawRow_spec x y i 8 0 (c.mem (c.i_addr_reg + i)) c (by omega) hB
    simp only [Nat.zero_add] at innerHit innerFrame innerVF1 innerVF0
    obtain ⟨hc1mem, hc1pc, hc1sp, hc1stack, hc1ia, hc1dt, hc1st, hc1keys, hc1ps, hc1cc⟩ :=
      innerFields
    have hmem1 : ∀ t, t < k →
        (drawRow x y i (c.mem (c.i_addr_reg + i)) 0 8 c).mem
          ((drawRow x y i (c.mem (c.i_addr_reg + i)) 0 8 c).i_addr_reg + (i + 1 + t)) < 256 := by
      intro t ht
      rw [hc1mem, hc1ia]
      have he : i + 1 + t = i + (t + 1) := by omega
      rw [he]
      exact hmem (t + 1) (by omega)
    obtain ⟨IHfields, IHhit, IHframe, IHvf1, IHvf0⟩ :=
      ih (i + 1) (drawRow x y i (c.mem (c.i_addr_reg + i)) 0 8 c) (by omega) hmem1
    obtain ⟨IHmem, IHpc, IHsp, IHstack, IHia, IHdt, IHst, IHkeys, IHps, IHcc⟩ := IHfields
    -- the untouched-row fact for row i against the remaining rows
    have hrowne : ∀ t, t < k → (i + 1 + t + y) % 32 ≠ (i + y) % 32 := by
      intro t ht hcontra
      omega
    -- pixels of the intermediate state on the remaining rows agree with c
    have hc1rest : ∀ t j, t < k →
        (drawRow x y i (c.mem (c.i_addr_reg + i)) 0 8 c).pixels
            ((j + x) % 64) ((i + 1 + t + y) % 32)
          = c.pixels ((j + x) % 64) ((i + 1 + t + y) % 32) := by
      intro t j ht
      refine innerFrame _ _ ?_
      intro t' _ hcontra
      exact hrowne t ht hcontra.2
    refine ⟨?_, ?_, ?_, ?_, ?_⟩
    · rw [hstep]
      refine ⟨IHmem.trans hc1mem, IHpc.trans hc1pc, IHsp.trans hc1sp, IHstack.trans hc1stack,
        IHia.trans hc1ia, IHdt.trans hc1dt, IHst.trans hc1st, IHkeys.trans hc1keys,
        IHps.trans hc1ps, IHcc.trans hc1cc⟩
    · -- hit
      intro t j ht hj
      rw [hstep]
      match t with
      | 0 =>
        simp only [Nat.add_zero]
        have huntouched : ∀ t' j', t' < k → j' < 8 →
            ¬((j + x) % 64 = (j' + x) % 64 ∧ (i + y) % 32 = (i + 1 + t' + y) % 32) := by
          intro t' j' ht' _ hcontra
          exact hrowne t' ht' hcontra.2.symm
        rw [IHframe _ _ huntouched]
        exact innerHit j hj
      | s + 1 =>
        have he : i + (s + 1) = i + 1 + s := by omega
        rw [he]
        have hs : s < k := by omega
        have := IHhit s j hs hj
        rw [hc1mem, hc1ia, hc1rest s j hs] at this
        exact this
    · -- frame
      intro a b hab
      rw [hstep]
      have hab1 : ∀ t j, t < k → j < 8 → ¬(a = (j + x) % 64 ∧ b = (i + 1 + t + y) % 32) := by
        intro t j ht hj hcontra
        have he : i + 1 + t = i + (t + 1) := by omega
        rw [he] at hcontra
        exact hab (t + 1) j (by omega) hj hcontra
      rw [IHframe a b hab1]
      refine innerFrame a b ?_
      intro t' ht' hcontra
      have he : i + y = i + 0 + y := by omega
      rw [he] at hcontra
      exact hab 0 t' (by omega) ht' hcontra
    · -- VF forced to 1
      rintro ⟨t, ht, j, hj, hp1, hp0⟩
      rw [hstep]
      match t with
      | 0 =>
        simp only [Nat.add_zero] at hp1 hp0
        have hcond : (drawRow x y i (c.mem (c.i_addr_reg + i)) 0 8 c).v_reg
            = upd c.v_reg 15 1 := innerVF1 ⟨j, hj, hp1, hp0⟩
        by_cases hex : ∃ t', t' < k ∧ ∃ j', j' < 8 ∧
            (drawRow x y i (c.mem (c.i_addr_reg + i)) 0 8 c).pixels
                ((j' + x) % 64) ((i + 1 + t' + y) % 32) = 1 ∧
            spriteBit ((drawRow x y i (c.mem (c.i_addr_reg + i)) 0 8 c).mem
                ((drawRow x y i (c.mem (c.i_addr_reg + i)) 0 8 c).i_addr_reg + (i + 1 + t'))) j' ^^^
              (drawRow x y i (c.mem (c.i_addr_reg + i)) 0 8 c).pixels
                ((j' + x) % 64) ((i + 1 + t' + y) % 32) = 0
        · rw [IHvf1 hex, hcond, upd_upd_same]
        · rw [IHvf0, hcond]
          intro t' j' ht' hj' hcontra
          exact hex ⟨t', ht', j', hj', hcontra⟩
      | s + 1 =>
        have hs : s < k := by omega
        have he : i + (s + 1) = i + 1 + s := by omega
        rw [he] at hp1 hp0
        have hcond1 : (drawRow x y i (c.mem (c.i_addr_reg + i)) 0 8 c).pixels
            ((j + x) % 64) ((i + 1 + s + y) % 32) = 1 ∧
            spriteBit ((drawRow x y i (c.mem (c.i_addr_reg + i)) 0 8 c).mem
                ((drawRow x y i (c.mem (c.i_addr_reg + i)) 0 8 c).i_addr_reg + (i + 1 + s))) j ^^^
              (drawRow x y i (c.mem (c.i_addr_reg + i)) 0 8 c).pixels
                ((j + x) % 64) ((i + 1 + s + y) % 32) = 0 := by
          rw [hc1mem, hc1ia, hc1rest s j hs]
          exact ⟨hp1, hp0⟩
        rw [IHvf1 ⟨s, hs, j, hj, hcond1⟩]
        by_cases hcond0 : ∃ t', t' < 8 ∧
            c.pixels ((t' + x) % 64) ((i + y) % 32) = 1 ∧
            spriteBit (c.mem (c.i_addr_reg + i)) t' ^^^
              c.pixels ((t' + x) % 64) ((i + y) % 32) = 0
        · rw [innerVF1 hcond0, upd_upd_same]
        · rw [innerVF0]
          intro t' ht' hcontra
          exact hcond0 ⟨t', ht', hcontra⟩
    · -- VF untouched
      intro hall
      rw [hstep]
      have hcond0 : (drawRow x y i (c.mem (c.i_addr_reg + i)) 0 8 c).v_reg = c.v_reg := by
        refine innerVF0 ?_
        intro t' ht' hcontra
        have he : i + y = i + 0 + y := by omega
        rw [he] at hcontra
        exact hall 0 t' (by omega) ht' hcontra
      rw [IHvf0, hcond0]
      intro t' j' ht' hj' hcontra
      rw [hc1mem, hc1ia, hc1rest t' j' ht'] at hcontra
      have he : i + 1 + t' = i + (t' + 1) := by omega
      rw [he] at hcontra
      exact hall (t' + 1) j' (by omega) hj' hcontra

/-- Full characterisation of opcode `DXYN` (`execDraw`): only the
footprint pixels, `VF` and `pc` change; each sprite bit is XOR-composited
at its wrapped position; `VF` becomes 1 exactly when some on-bit lands on
an on-pixel. -/
theorem execDraw_spec (op1 op2 x y n : Nat) (c : Chip8)
    (hx : x = c.v_reg (op1 % 16)) (hy : y = c.v_reg (op2 / 16)) (hn : n = op2 % 16)
    (hmem : ∀ t, t < n → c.mem (c.i_addr_reg + t) < 256) :
    ((execDraw op1 op2 c).mem = c.mem
      ∧ (execDraw op1 op2 c).pc = (c.pc + 2) % 65536
      ∧ (execDraw op1 op2 c).sp = c.sp
      ∧ (execDraw op1 op2 c).stack = c.stack
      ∧ (execDraw op1 op2 c).i_addr_reg = c.i_addr_reg
      ∧ (execDraw op1 op2 c).delay_timer = c.delay_timer
      ∧ (execDraw op1 op2 c).sound_timer = c.sound_timer
      ∧ (execDraw op1 op2 c).keys = c.keys
      ∧ (execDraw op1 op2 c).program_size = c.program_size
      ∧ (execDraw op1 op2 c).cycle_count = c.cycle_count)
    ∧ (∀ r, r ≠ 15 → (execDraw op1 op2 c).v_reg r = c.v_reg r)
    ∧ (∀ t j, t < n → j < 8 →
        (execDraw op1 op2 c).pixels ((j + x) % 64) ((t + y) % 32)
          = spriteBit (c.mem (c.i_addr_reg + t)) j ^^^
              c.pixels ((j + x) % 64) ((t + y) % 32))
    ∧ (∀ a b, (∀ t j, t < n → j < 8 → ¬(a = (j + x) % 64 ∧ b = (t + y) % 32)) →
        (execDraw op1 op2 c).pixels a b = c.pixels a b)
    ∧ ((∃ t, t < n ∧ ∃ j, j < 8 ∧ c.pixels ((j + x) % 64) ((t + y) % 32) = 1 ∧
          spriteBit (c.mem (c.i_addr_reg + t)) j ^^^
            c.pixels ((j + x) % 64) ((t + y) % 32) = 0) →
        (execDraw op1 op2 c).v_reg 15 = 1)
    ∧ ((∀ t j, t < n → j < 8 → ¬(c.pixels ((j + x) % 64) ((t + y) % 32) = 1 ∧
          spriteBit (c.mem (c.i_addr_reg + t)) j ^^^
            c.pixels ((j + x) % 64) ((t + y) % 32) = 0)) →
        (execDraw op1 op2 c).v_reg 15 = 0) := by
  subst hx hy hn
  obtain ⟨⟨Dmem, Dpc, Dsp, Dstack, Dia, Ddt, Dst, Dkeys, Dps, Dcc⟩, Dhit, Dframe, Dvf1, Dvf0⟩ :=
    drawRows_spec (c.v_reg (op1 % 16)) (c.v_reg (op2 / 16)) (op2 % 16) 0
      { c with v_reg := upd c.v_reg 15 0 } (by omega)
      (by
        intro t ht
        simp only [Nat.zero_add]
        exact hmem t ht)
  simp only [Nat.zero_add] at Dhit Dframe Dvf1 Dvf0
  refine ⟨⟨Dmem, ?_, Dsp, Dstack, Dia, Ddt, Dst, Dkeys, Dps, Dcc⟩, ?_, Dhit, Dframe, ?_, ?_⟩
  · show ((drawRows (c.v_reg (op1 % 16)) (c.v_reg (op2 / 16)) 0 (op2 % 16)
        { c with v_reg := upd c.v_reg 15 0 }).pc + 2) % 65536 = (c.pc + 2) % 65536
    rw [Dpc]
  · intro r hr
    show (drawRows (c.v_reg (op1 % 16)) (c.v_reg (op2 / 16)) 0 (op2 % 16)
        { c with v_reg := upd c.v_reg 15 0 }).v_reg r = c.v_reg r
    by_cases hex : ∃ t, t < op2 % 16 ∧ ∃ j, j < 8 ∧
        c.pixels ((j + c.v_reg (op1 % 16)) % 64) ((t + c.v_reg (op2 / 16)) % 32) = 1 ∧
        spriteBit (c.mem (c.i_addr_reg + t)) j ^^^
          c.pixels ((j + c.v_reg (op1 % 16)) % 64) ((t + c.v_reg (op2 / 16)) % 32) = 0
    · rw [Dvf1 hex, upd_ne _ _ _ _ hr, upd_ne _ _ _ _ hr]
    · rw [Dvf0, upd_ne _ _ _ _ hr]
      intro t j ht hj hcontra
      exact hex ⟨t, ht, j, hj, hcontra⟩
  · intro hex
    show (drawRows (c.v_reg (op1 % 16)) (c.v_reg (op2 / 16)) 0 (op2 % 16)
        { c with v_reg := upd c.v_reg 15 0 }).v_reg 15 = 1
    rw [Dvf1 hex, upd_self]
  · intro hall
    show (drawRows (c.v_reg (op1 % 16)) (c.v_reg (op2 / 16)) 0 (op2 % 16)
        { c with v_reg := upd c.v_reg 15 0 }).v_reg 15 = 0
    rw [Dvf0 hall, upd_self]

theorem decode_eq_group0 (rng op1 op2 : Nat) (c : Chip8) (h : op1 / 16 = 0) :
    decode_instruction rng op1 op2 c = execGroup0 op1 op2 c := by
  unfold decode_instruction
  rw [h]
  rfl

theorem decode_eq_group5 (rng op1 op2 : Nat) (c : Chip8) (h : op1 / 16 = 5) :
    decode_instruction rng op1 op2 c
      = { c with pc := ((if c.v_reg (op1 % 16) = c.v_reg (op2 / 16)
            then (c.pc + 2) % 65536 else c.pc) + 2) % 65536 } := by
  unfold decode_instruction
  rw [h]
  rfl

theorem decode_eq_groupB (rng op1 op2 : Nat) (c : Chip8) (h : op1 / 16 = 11) :
    decode_instruction rng op1 op2 c
      = { c with pc := ((c.v_reg 0 + nnnOf op1 op2) % 65536 + 2) % 65536 } := by
  unfold decode_instruction
  rw [h]
  rfl

theorem decode_eq_group8 (rng op1 op2 : Nat) (c : Chip8) (h : op1 / 16 = 8) :
    decode_instruction rng op1 op2 c = execGroup8 op1 op2 c := by
  unfold decode_instruction
  rw [h]
  rfl

theorem decode_eq_draw (rng op1 op2 : Nat) (c : Chip8) (h : op1 / 16 = 13) :
    decode_instruction rng op1 op2 c = execDraw op1 op2 c := by
  unfold decode_instruction
  rw [h]
  rfl

theorem decode_eq_groupE (rng op1 op2 : Nat) (c : Chip8) (h : op1 / 16 = 14) :
    decode_instruction rng op1 op2 c = execGroupE op1 op2 c := by
  unfold decode_instruction
  rw [h]
  rfl

theorem decode_eq_groupF (rng op1 op2 : Nat) (c : Chip8) (h : op1 / 16 = 15) :
    decode_instruction rng op1 op2 c = execGroupF op1 op2 c := by
  unfold decode_instruction
  rw [h]
  rfl

/-- The key scan of `FX0A` succeeds exactly when some key in the scanned
window is nonzero. -/
theorem anyKeyPressed_iff (keys : Nat → Nat) :
    ∀ (k s : Nat), anyKeyPressed keys s k = true ↔ ∃ t, t < k ∧ keys (s + t) ≠ 0 := by
  intro k
  induction k with
  | zero =>
    intro s
    simp [anyKeyPressed]
  | succ k ih =>
    intro s
    unfold anyKeyPressed
    by_cases h : keys s ≠ 0
    · simp only [if_pos h, true_iff]
      exact ⟨0, by omega, by rwa [Nat.add_zero]⟩
    · rw [if_neg h, ih (s + 1)]
      constructor
      · rintro ⟨t, ht, hne⟩
        exact ⟨t + 1, by omega, by rwa [show s + (t + 1) = s + 1 + t from by omega]⟩
      · rintro ⟨t, ht, hne⟩
        match t with
        | 0 =>
          rw [Nat.add_zero] at hne
          exact absurd hne h
        | t + 1 =>
          exact ⟨t, by omega, by rwa [show s + 1 + t = s + (t + 1) from by omega]⟩

/-- Claim C2: executing `DXYN` draws the `N`-row sprite read from
`mem[I..I+N]` at `(Vx, Vy)`: each of the 8 bits of every row byte, most
significant first, is XOR-composited into the pixel at
`((x+col) mod 64, (y+row) mod 32)`, and `VF` is set to 1 if any pixel
transitioned from on to off anywhere in the whole sprite, else 0. -/
theorem C2_theorem (rng : Nat) (c : Chip8) (op1 op2 x y n : Nat)
    (hop1 : op1 = c.mem c.pc) (hop2 : op2 = c.mem (c.pc + 1))
    (hD : op1 / 16 = 13)
    (hx : x = c.v_reg (op1 % 16)) (hy : y = c.v_reg (op2 / 16)) (hn : n = op2 % 16)
    (hmem : ∀ t, t < n → c.mem (c.i_addr_reg + t) < 256) :
    (∀ t j, t < n → j < 8 →
      (execute_cycle rng c).1.pixels ((j + x) % 64) ((t + y) % 32)
        = spriteBit (c.mem (c.i_addr_reg + t)) j ^^^
            c.pixels ((j + x) % 64) ((t + y) % 32))
    ∧ ((∃ t, t < n ∧ ∃ j, j < 8 ∧ c.pixels ((j + x) % 64) ((t + y) % 32) = 1 ∧
          spriteBit (c.mem (c.i_addr_reg + t)) j ^^^
            c.pixels ((j + x) % 64) ((t + y) % 32) = 0) →
        (execute_cycle rng c).1.v_reg 15 = 1)
    ∧ ((∀ t j, t < n → j < 8 → ¬(c.pixels ((j + x) % 64) ((t + y) % 32) = 1 ∧
          spriteBit (c.mem (c.i_addr_reg + t)) j ^^^
            c.pixels ((j + x) % 64) ((t + y) % 32) = 0)) →
        (execute_cycle rng c).1.v_reg 15 = 0) := by
  subst hop1 hop2
  obtain ⟨-, -, hhit, -, hvf1, hvf0⟩ :=
    execDraw_spec (c.mem c.pc) (c.mem (c.pc + 1)) x y n c hx hy hn hmem
  have hpix : (execute_cycle rng c).1.pixels
      = (execDraw (c.mem c.pc) (c.mem (c.pc + 1)) c).pixels := by
    show (decode_instruction rng (c.mem c.pc) (c.mem (c.pc + 1)) c).pixels = _
    rw [decode_eq_draw rng (c.mem c.pc) (c.mem (c.pc + 1)) c hD]
  have hvr : (execute_cycle rng c).1.v_reg
      = (execDraw (c.mem c.pc) (c.mem (c.pc + 1)) c).v_reg := by
    show (decode_instruction rng (c.mem c.pc) (c.mem (c.pc + 1)) c).v_reg = _
    rw [decode_eq_draw rng (c.mem c.pc) (c.mem (c.pc + 1)) c hD]
  refine ⟨?_, ?_, ?_⟩
  · intro t j ht hj
    rw [hpix]
    exact hhit t j ht hj
  · intro hex
    rw [hvr]
    exact hvf1 hex
  · intro hall
    rw [hvr]
    exact hvf0 hall

/-- Witness for C2 at the concrete machine `cdrawEx` (opcode `D001`,
sprite byte `0xA0` at `I = 0x300`). -/
theorem C2_witness :
    (∀ t, t < 1 → cdrawEx.mem (cdrawEx.i_addr_reg + t) < 256)
    ∧ ((∀ t j, t < 1 → j < 8 →
        (execute_cycle 0 cdrawEx).1.pixels ((j + 0) % 64) ((t + 0) % 32)
          = spriteBit (cdrawEx.mem (cdrawEx.i_addr_reg + t)) j ^^^
              cdrawEx.pixels ((j + 0) % 64) ((t + 0) % 32))
      ∧ ((∃ t, t < 1 ∧ ∃ j, j < 8 ∧ cdrawEx.pixels ((j + 0) % 64) ((t + 0) % 32) = 1 ∧
            spriteBit (cdrawEx.mem (cdrawEx.i_addr_reg + t)) j ^^^
              cdrawEx.pixels ((j + 0) % 64) ((t + 0) % 32) = 0) →
          (execute_cycle 0 cdrawEx).1.v_reg 15 = 1)
      ∧ ((∀ t j, t < 1 → j < 8 → ¬(cdrawEx.pixels ((j + 0) % 64) ((t + 0) % 32) = 1 ∧
            spriteBit (cdrawEx.mem (cdrawEx.i_addr_reg + t)) j ^^^
              cdrawEx.pixels ((j + 0) % 64) ((t + 0) % 32) = 0)) →
          (execute_cycle 0 cdrawEx).1.v_reg 15 = 0)) :=
  ⟨by decide,
    C2_theorem 0 cdrawEx 208 1 0 0 1 (by decide) (by decide) (by decide)
      (by decide) (by decide) (by decide) (by decide)⟩

/-- Claim C10 (implicit): executing `DXYN` modifies only the framebuffer
pixels inside the sprite's wrapped footprint, the flag register `VF` and
`pc` (which advances by exactly 2); memory, `I`, `V0..VE`, both timers,
the stack, the stack pointer, the key buffer and every pixel outside the
footprint are unchanged. -/
theorem C10_theorem (rng op1 op2 x y n : Nat) (c c' : Chip8)
    (hc' : c' = decode_instruction rng op1 op2 c)
    (hD : op1 / 16 = 13)
    (hx : x = c.v_reg (op1 % 16)) (hy : y = c.v_reg (op2 / 16)) (hn : n = op2 % 16)
    (hmem : ∀ t, t < n → c.mem (c.i_addr_reg + t) < 256)
    (hpc : c.pc + 2 < 65536) :
    c'.mem = c.mem
    ∧ c'.i_addr_reg = c.i_addr_reg
    ∧ (∀ r, r < 15 → c'.v_reg r = c.v_reg r)
    ∧ c'.delay_timer = c.delay_timer
    ∧ c'.sound_timer = c.sound_timer
    ∧ c'.stack = c.stack
    ∧ c'.sp = c.sp
    ∧ c'.keys = c.keys
    ∧ c'.program_size = c.program_size
    ∧ c'.cycle_count = c.cycle_count
    ∧ (∀ a b, (∀ t j, t < n → j < 8 → ¬(a = (j + x) % 64 ∧ b = (t + y) % 32)) →
        c'.pixels a b = c.pixels a b)
    ∧ c'.pc = c.pc + 2 := by
  subst hc'
  rw [decode_eq_draw rng op1 op2 c hD]
  obtain ⟨⟨hm, hp, hsp, hst, hia, hdt, hsnd, hk, hps, hcc⟩, hvr, -, hframe, -, -⟩ :=
    execDraw_spec op1 op2 x y n c hx hy hn hmem
  refine ⟨hm, hia, ?_, hdt, hsnd, hst, hsp, hk, hps, hcc, hframe, ?_⟩
  · intro r hr
    exact hvr r (by omega)
  · rw [hp, Nat.mod_eq_of_lt hpc]

/-- Witness for C10 at the concrete machine `cdrawEx`. -/
theorem C10_witness :
    (cdrawEx.pc + 2 < 65536)
    ∧ ((decode_instruction 0 208 1 cdrawEx).mem = cdrawEx.mem
      ∧ (decode_instruction 0 208 1 cdrawEx).i_addr_reg = cdrawEx.i_addr_reg
      ∧ (∀ r, r < 15 → (decode_instruction 0 208 1 cdrawEx).v_reg r = cdrawEx.v_reg r)
      ∧ (decode_instruction 0 208 1 cdrawEx).delay_timer = cdrawEx.delay_timer
      ∧ (decode_instruction 0 208 1 cdrawEx).sound_timer = cdrawEx.sound_timer
      ∧ (decode_instruction 0 208 1 cdrawEx).stack = cdrawEx.stack
      ∧ (decode_instruction 0 208 1 cdrawEx).sp = cdrawEx.sp
      ∧ (decode_instruction 0 208 1 cdrawEx).keys = cdrawEx.keys
      ∧ (decode_instruction 0 208 1 cdrawEx).program_size = cdrawEx.program_size
      ∧ (decode_instruction 0 208 1 cdrawEx).cycle_count = cdrawEx.cycle_count
      ∧ (∀ a b, (∀ t j, t < 1 → j < 8 → ¬(a = (j + 0) % 64 ∧ b = (t + 0) % 32)) →
          (decode_instruction 0 208 1 cdrawEx).pixels a b = cdrawEx.pixels a b)
      ∧ (decode_instruction 0 208 1 cdrawEx).pc = cdrawEx.pc + 2) :=
  ⟨by decide,
    C10_theorem 0 208 1 0 0 1 cdrawEx (decode_instruction 0 208 1 cdrawEx) rfl
      (by decide) (by decide) (by decide) (by decide) (by decide) (by decide)⟩

/-- Counterexample to claim C6 as stated: drawing the identical all-zero
sprite (opcode `D001` with `I = 0`, `mem[0] = 0`) twice in succession
leaves `VF = 0` after the second draw, not 1. -/
theorem C6_counterexample :
    (decode_instruction 0 208 1 (decode_instruction 0 208 1 (oneInstr 208 1))).v_reg 15 ≠ 1 := by
  decide

/-- Claim C6 (amended): executing the identical `DXYN` draw twice in
succession (memory, `I`, `Vx`, `Vy` unchanged in between) restores the
framebuffer to its state before the first draw; the second draw sets
`VF = 1` exactly when the first draw switched some pixel from off to on
(an on-bit of the sprite over an initially off pixel), and `VF = 0`
otherwise — not unconditionally 1. -/
theorem C6_theorem (rng op1 op2 x y n : Nat) (c c1 c2 : Chip8)
    (hc1 : c1 = decode_instruction rng op1 op2 c)
    (hc2 : c2 = decode_instruction rng op1 op2 c1)
    (hD : op1 / 16 = 13)
    (hx : x = c.v_reg (op1 % 16)) (hy : y = c.v_reg (op2 / 16)) (hn : n = op2 % 16)
    (hx1 : c1.v_reg (op1 % 16) = c.v_reg (op1 % 16))
    (hy1 : c1.v_reg (op2 / 16) = c.v_reg (op2 / 16))
    (hmem : ∀ t, t < n → c.mem (c.i_addr_reg + t) < 256) :
    (∀ a b, c2.pixels a b = c.pixels a b)
    ∧ ((∃ t, t < n ∧ ∃ j, j < 8 ∧ spriteBit (c.mem (c.i_addr_reg + t)) j = 1 ∧
          c.pixels ((j + x) % 64) ((t + y) % 32) = 0) →
        c2.v_reg 15 = 1)
    ∧ ((∀ t j, t < n → j < 8 → ¬(spriteBit (c.mem (c.i_addr_reg + t)) j = 1 ∧
          c.pixels ((j + x) % 64) ((t + y) % 32) = 0)) →
        c2.v_reg 15 = 0) := by
  subst hc2
  subst hc1
  rw [decode_eq_draw rng op1 op2 c hD] at hx1 hy1 ⊢
  rw [decode_eq_draw rng op1 op2 (execDraw op1 op2 c) hD]
  obtain ⟨⟨hm1, _, _, _, hia1, _, _, _, _, _⟩, _, S1hit, S1frame, _, _⟩ :=
    execDraw_spec op1 op2 x y n c hx hy hn hmem
  obtain ⟨_, _, S2hit, S2frame, S2vf1, S2vf0⟩ :=
    execDraw_spec op1 op2 x y n (execDraw op1 op2 c)
      (by rw [hx1]; exact hx) (by rw [hy1]; exact hy) hn
      (by intro t ht; rw [hm1, hia1]; exact hmem t ht)
  have hcond : ∀ t j, t < n → j < 8 →
      (((execDraw op1 op2 c).pixels ((j + x) % 64) ((t + y) % 32) = 1 ∧
        spriteBit ((execDraw op1 op2 c).mem ((execDraw op1 op2 c).i_addr_reg + t)) j ^^^
          (execDraw op1 op2 c).pixels ((j + x) % 64) ((t + y) % 32) = 0)
      ↔ (spriteBit (c.mem (c.i_addr_reg + t)) j = 1 ∧
          c.pixels ((j + x) % 64) ((t + y) % 32) = 0)) := by
    intro t j ht hj
    rw [hm1, hia1, S1hit t j ht hj, ← Nat.xor_assoc, Nat.xor_self, Nat.zero_xor]
    constructor
    · rintro ⟨h1, h2⟩
      rw [h2, Nat.xor_zero] at h1
      exact ⟨h1, h2⟩
    · rintro ⟨h1, h2⟩
      rw [h1, h2]
      exact ⟨rfl, rfl⟩
  refine ⟨?_, ?_, ?_⟩
  · intro a b
    by_cases hfoot : ∃ t, t < n ∧ ∃ j, j < 8 ∧ a = (j + x) % 64 ∧ b = (t + y) % 32
    · obtain ⟨t, ht, j, hj, ha, hb⟩ := hfoot
      subst ha
      subst hb
      rw [S2hit t j ht hj, hm1, hia1, S1hit t j ht hj, ← Nat.xor_assoc, Nat.xor_self,
        Nat.zero_xor]
    · have hout : ∀ t j, t < n → j < 8 → ¬(a = (j + x) % 64 ∧ b = (t + y) % 32) := by
        intro t j ht hj hcontra
        exact hfoot ⟨t, ht, j, hj, hcontra⟩
      rw [S2frame a b hout, S1frame a b hout]
  · rintro ⟨t, ht, j, hj, hbit, hoff⟩
    exact S2vf1 ⟨t, ht, j, hj, (hcond t j ht hj).mpr ⟨hbit, hoff⟩⟩
  · intro hall
    refine S2vf0 ?_
    intro t j ht hj hcontra
    exact hall t j ht hj ((hcond t j ht hj).mp hcontra)

/-- Witness for C6 at the concrete machine `cdrawEx`: its sprite byte
`0xA0` over an all-off framebuffer, so the second-draw collision condition
is realised. -/
theorem C6_witness :
    ((decode_instruction 0 208 1 cdrawEx).v_reg (208 % 16) = cdrawEx.v_reg (208 % 16))
    ∧ ((∀ a b, (decode_instruction 0 208 1 (decode_instruction 0 208 1 cdrawEx)).pixels a b
          = cdrawEx.pixels a b)
      ∧ ((∃ t, t < 1 ∧ ∃ j, j < 8 ∧ spriteBit (cdrawEx.mem (cdrawEx.i_addr_reg + t)) j = 1 ∧
            cdrawEx.pixels ((j + 0) % 64) ((t + 0) % 32) = 0) →
          (decode_instruction 0 208 1 (decode_instruction 0 208 1 cdrawEx)).v_reg 15 = 1)
      ∧ ((∀ t j, t < 1 → j < 8 → ¬(spriteBit (cdrawEx.mem (cdrawEx.i_addr_reg + t)) j = 1 ∧
            cdrawEx.pixels ((j + 0) % 64) ((t + 0) % 32) = 0)) →
          (decode_instruction 0 208 1 (decode_instruction 0 208 1 cdrawEx)).v_reg 15 = 0)) :=
  ⟨by decide,
    C6_theorem 0 208 1 0 0 1 cdrawEx
      (decode_instruction 0 208 1 cdrawEx)
      (decode_instruction 0 208 1 (decode_instruction 0 208 1 cdrawEx))
      rfl rfl (by decide) (by decide) (by decide) (by decide) (by decide) (by decide)
      (by decide)⟩

/-- Counterexample to claim C1 as stated: opcode `0x5001` (low nibble 1,
not a documented pattern) produces no error of any kind — the step
executes it exactly like `5XY0` (here `V0 = V0`, so the skip is taken and
`pc` lands at `0x204`) and returns the incremented cycle counter. -/
theorem C1_counterexample :
    (execute_cycle 0 (oneInstr 80 1)).1.pc = 516
    ∧ (execute_cycle 0 (oneInstr 80 1)).2 = 1 := by
  decide

/-- Claim C1 (amended): `step` has no error channel at all.  An opcode
with high nibble 5 is executed as `5XY0` whatever its low nibble is, and
an unmatched opcode of any other group — group 0 other than
`00E0`/`00EE`, group 8 with an undocumented low nibble of `opcode2`,
group E other than `EX9E`/`EXA1`, group F with an undocumented `opcode2`
— leaves the machine state completely unchanged: a silent no-op (a
debug-build-only assertion in the source), not a reported
`UnknownOpcode` error. -/
theorem C1_theorem :
    (∀ (rng op1 op2 : Nat) (c : Chip8), op1 / 16 = 5 →
      decode_instruction rng op1 op2 c
        = { c with pc := ((if c.v_reg (op1 % 16) = c.v_reg (op2 / 16)
              then (c.pc + 2) % 65536 else c.pc) + 2) % 65536 })
    ∧ (∀ (rng op1 op2 : Nat) (c : Chip8), op1 / 16 = 0 →
        ¬(op1 = 0 ∧ op2 = 0xE0) → ¬(op1 = 0 ∧ op2 = 0xEE) →
        decode_instruction rng op1 op2 c = c)
    ∧ (∀ (rng op1 op2 : Nat) (c : Chip8), op1 / 16 = 8 →
        op2 % 16 ≠ 0x0 → op2 % 16 ≠ 0x1 → op2 % 16 ≠ 0x2 → op2 % 16 ≠ 0x3 →
        op2 % 16 ≠ 0x4 → op2 % 16 ≠ 0x5 → op2 % 16 ≠ 0x6 → op2 % 16 ≠ 0x7 →
        op2 % 16 ≠ 0xE →
        decode_instruction rng op1 op2 c = c)
    ∧ (∀ (rng op1 op2 : Nat) (c : Chip8), op1 / 16 = 14 →
        op2 ≠ 0x9E → op2 ≠ 0xA1 →
        decode_instruction rng op1 op2 c = c)
    ∧ (∀ (rng op1 op2 : Nat) (c : Chip8), op1 / 16 = 15 →
        op2 ≠ 0x07 → op2 ≠ 0x0A → op2 ≠ 0x15 → op2 ≠ 0x18 → op2 ≠ 0x1E →
        op2 ≠ 0x29 → op2 ≠ 0x33 → op2 ≠ 0x55 → op2 ≠ 0x65 →
        decode_instruction rng op1 op2 c = c) := by
  refine ⟨?_, ?_, ?_, ?_, ?_⟩
  · intro rng op1 op2 c h
    exact decode_eq_group5 rng op1 op2 c h
  · intro rng op1 op2 c h hne1 hne2
    rw [decode_eq_group0 rng op1 op2 c h]
    unfold execGroup0
    rw [if_neg hne1, if_neg hne2]
  · intro rng op1 op2 c h h0 h1 h2 h3 h4 h5 h6 h7 hE
    rw [decode_eq_group8 rng op1 op2 c h]
    unfold execGroup8
    split <;> first | rfl | omega
  · intro rng op1 op2 c h hne1 hne2
    rw [decode_eq_groupE rng op1 op2 c h]
    unfold execGroupE
    split <;> first | rfl | omega
  · intro rng op1 op2 c h hne1 hne2 hne3 hne4 hne5 hne6 hne7 hne8 hne9
    rw [decode_eq_groupF rng op1 op2 c h]
    unfold execGroupF
    split <;> first | rfl | omega

/-- Witness for C1: `0x5001` on a fresh machine takes the `5XY0` path,
and the invalid opcodes `0x0123`, `0x8808`, `0xE000` and `0xF001` are
complete no-ops. -/
theorem C1_witness :
    decode_instruction 0 80 1 initC8
      = { initC8 with pc := ((if initC8.v_reg (80 % 16) = initC8.v_reg (1 / 16)
            then (initC8.pc + 2) % 65536 else initC8.pc) + 2) % 65536 }
    ∧ decode_instruction 0 1 35 initC8 = initC8
    ∧ decode_instruction 0 136 8 initC8 = initC8
    ∧ decode_instruction 0 224 0 initC8 = initC8
    ∧ decode_instruction 0 240 1 initC8 = initC8 :=
  ⟨C1_theorem.1 0 80 1 initC8 (by decide),
   C1_theorem.2.1 0 1 35 initC8 (by decide) (by decide) (by decide),
   C1_theorem.2.2.1 0 136 8 initC8 (by decide) (by decide) (by decide) (by decide)
     (by decide) (by decide) (by decide) (by decide) (by decide) (by decide),
   C1_theorem.2.2.2.1 0 224 0 initC8 (by decide) (by decide) (by decide),
   C1_theorem.2.2.2.2 0 240 1 initC8 (by decide) (by decide) (by decide) (by decide)
     (by decide) (by decide) (by decide) (by decide) (by decide) (by decide)⟩

/-- Counterexample to claim C3 as stated: executing `B300` on a fresh
machine (so `V0 = 0`, `NNN = 0x300`) leaves `pc = 0x302`, not
`V0 + NNN = 0x300` — the trailing `pc += 2` is applied. -/
theorem C3_counterexample :
    (execute_cycle 0 (oneInstr 179 0)).1.pc
      ≠ (oneInstr 179 0).v_reg 0 + nnnOf 179 0 := by
  decide

/-- Claim C3 (amended): executing `BNNN` sets `pc` to `V0 + NNN` and then
adds the usual 2, so the step ends with `pc = V0 + NNN + 2` (the `+2`
quirk applies), not `V0 + NNN`. -/
theorem C3_theorem (rng : Nat) (c : Chip8) (hB : c.mem c.pc / 16 = 11) :
    (execute_cycle rng c).1.pc
      = ((c.v_reg 0 + nnnOf (c.mem c.pc) (c.mem (c.pc + 1))) % 65536 + 2) % 65536 := by
  have h := decode_eq_groupB rng (c.mem c.pc) (c.mem (c.pc + 1)) c hB
  show (decode_instruction rng (c.mem c.pc) (c.mem (c.pc + 1)) c).pc = _
  rw [h]

/-- Witness for C3 at the concrete machine holding `B300`. -/
theorem C3_witness :
    ((oneInstr 179 0).mem (oneInstr 179 0).pc / 16 = 11)
    ∧ (execute_cycle 0 (oneInstr 179 0)).1.pc
        = (((oneInstr 179 0).v_reg 0
            + nnnOf ((oneInstr 179 0).mem (oneInstr 179 0).pc)
                ((oneInstr 179 0).mem ((oneInstr 179 0).pc + 1))) % 65536 + 2) % 65536 :=
  ⟨by decide, C3_theorem 0 (oneInstr 179 0) (by decide)⟩

/-- Counterexample to claim C4 as stated: seventeen consecutive `2200`
calls from a fresh machine (the call at `0x200` calls itself) are all
executed silently — after the 17th step the machine keeps running with
`sp = 17`, `pc` back at the call target and `cycle_count = 17`; no
`StackOverflow` error exists or is reported. -/
theorem C4_counterexample :
    (runSteps 17 (oneInstr 34 0)).sp = 17
    ∧ (runSteps 17 (oneInstr 34 0)).pc = 512
    ∧ (runSteps 17 (oneInstr 34 0)).cycle_count = 17 := by
  decide

/-- Claim C4 (amended): after 16 self-calls the stack pointer already sits
at the capacity 16 of the 16-entry stack; the 17th call is performed
silently all the same, incrementing `sp` to 17 and writing the return
address `0x202` at stack index 16 — one past the last valid index 15 of
the declared array (an out-of-bounds write in the original, not a
reported error). -/
theorem C4_theorem :
    (runSteps 16 (oneInstr 34 0)).sp = 16
    ∧ (runSteps 17 (oneInstr 34 0)).sp = 17
    ∧ (runSteps 17 (oneInstr 34 0)).stack 16 = 514 := by
  decide

/-- Counterexample to claim C5 as stated: executing `F00A` with no key
pressed does not leave all state unchanged — the step still increments
the cycle counter. -/
theorem C5_counterexample :
    (execute_cycle 0 (oneInstr 240 10)).1.cycle_count
      ≠ (oneInstr 240 10).cycle_count := by
  decide

/-- Claim C5 (amended): `FX0A` does not block.  When no key in the
16-entry buffer is pressed, the step leaves all machine state except the
cycle counter unchanged (in particular `pc`, so the same instruction is
re-polled next step); when some key is pressed, the destination register
`Vx` is set to the literal 1 — not the pressed key's index — and `pc`
advances by 2.  The cycle counter increments in both cases. -/
theorem C5_theorem (rng : Nat) (c : Chip8)
    (hF : c.mem c.pc / 16 = 15) (hA : c.mem (c.pc + 1) = 10) :
    ((∀ t, t < 16 → c.keys t = 0) →
      execute_cycle rng c
        = ({ c with cycle_count := (c.cycle_count + 1) % 18446744073709551616 },
           (c.cycle_count + 1) % 18446744073709551616))
    ∧ ((∃ t, t < 16 ∧ c.keys t ≠ 0) →
      execute_cycle rng c
        = ({ c with
              v_reg := upd c.v_reg (c.mem c.pc % 16) 1,
              pc := (c.pc + 2) % 65536,
              cycle_count := (c.cycle_count + 1) % 18446744073709551616 },
           (c.cycle_count + 1) % 18446744073709551616)) := by
  have hdec := decode_eq_groupF rng (c.mem c.pc) (c.mem (c.pc + 1)) c hF
  rw [hA] at hdec
  constructor
  · intro hnone
    have hb : anyKeyPressed c.keys 0 16 = false := by
      cases hq : anyKeyPressed c.keys 0 16
      · rfl
      · obtain ⟨t, ht, hne⟩ := (anyKeyPressed_iff c.keys 16 0).mp hq
        rw [Nat.zero_add] at hne
        exact absurd (hnone t ht) hne
    have hd : decode_instruction rng (c.mem c.pc) (c.mem (c.pc + 1)) c = c := by
      rw [hA, hdec]
      show (if anyKeyPressed c.keys 0 16 then
          { c with v_reg := upd c.v_reg (c.mem c.pc % 16) 1, pc := (c.pc + 2) % 65536 }
        else c) = c
      rw [hb]
      rfl
    show ({ decode_instruction rng (c.mem c.pc) (c.mem (c.pc + 1)) c with
        cycle_count := ((decode_instruction rng (c.mem c.pc) (c.mem (c.pc + 1)) c).cycle_count
          + 1) % 18446744073709551616 },
      ((decode_instruction rng (c.mem c.pc) (c.mem (c.pc + 1)) c).cycle_count
        + 1) % 18446744073709551616) = _
    rw [hd]
  · rintro ⟨t, ht, hne⟩
    have hb : anyKeyPressed c.keys 0 16 = true := by
      refine (anyKeyPressed_iff c.keys 16 0).mpr ⟨t, ht, ?_⟩
      rwa [Nat.zero_add]
    have hd : decode_instruction rng (c.mem c.pc) (c.mem (c.pc + 1)) c
        = { c with v_reg := upd c.v_reg (c.mem c.pc % 16) 1, pc := (c.pc + 2) % 65536 } := by
      rw [hA, hdec]
      show (if anyKeyPressed c.keys 0 16 then
          { c with v_reg := upd c.v_reg (c.mem c.pc % 16) 1, pc := (c.pc + 2) % 65536 }
        else c) = _
      rw [hb]
      rfl
    show ({ decode_instruction rng (c.mem c.pc) (c.mem (c.pc + 1)) c with
        cycle_count := ((decode_instruction rng (c.mem c.pc) (c.mem (c.pc + 1)) c).cycle_count
          + 1) % 18446744073709551616 },
      ((decode_instruction rng (c.mem c.pc) (c.mem (c.pc + 1)) c).cycle_count
        + 1) % 18446744073709551616) = _
    rw [hd]

/-- Witness for C5 at the concrete machine holding `F00A` with no key
pressed. -/
theorem C5_witness :
    ((oneInstr 240 10).mem (oneInstr 240 10).pc / 16 = 15)
    ∧ ((∀ t, t < 16 → (oneInstr 240 10).keys t = 0) →
      execute_cycle 0 (oneInstr 240 10)
        = ({ oneInstr 240 10 with
              cycle_count := ((oneInstr 240 10).cycle_count + 1) % 18446744073709551616 },
           ((oneInstr 240 10).cycle_count + 1) % 18446744073709551616)) :=
  ⟨by decide, (C5_theorem 0 (oneInstr 240 10) (by decide) (by decide)).1⟩

/-- Counterexample to claim C7 as stated: loading 3585 bytes — one more
than the available 4096 − 0x200 = 3584 — does not fail at all: the loader
records the oversize program, reports the normal entry point, and writes
the final byte at address 4096, one past the end of the 4096-byte
memory. -/
theorem C7_counterexample :
    (read_program_to_mem (List.replicate 3585 7) initC8).pc = 512
    ∧ (read_program_to_mem (List.replicate 3585 7) initC8).program_size = 3585
    ∧ (read_program_to_mem (List.replicate 3585 7) initC8).mem 4096 = 7 := by
  refine ⟨rfl, ?_, ?_⟩
  · show (List.replicate 3585 (7 : Nat)).length % 65536 = 3585
    rw [List.length_replicate]
  · simp only [read_program_to_mem]
    rw [List.length_replicate]
    rw [if_pos ⟨by decide, by decide⟩]
    rw [show (4096 : Nat) - 512 = 3584 from by decide]
    rw [List.getD_eq_getElem?_getD, List.getElem?_replicate]
    decide

/-- Claim C7 (amended): the loader performs no size check.  For every
byte sequence whose (16-bit truncated) length exceeds 3584, the load
still succeeds — `pc = 0x200`, the oversize length is recorded as the
program size, and the byte at offset 3584 is written to address 4096,
past the end of memory — instead of failing with any `TooLarge` error. -/
theorem C7_theorem (bytes : List Nat) (c c' : Chip8)
    (hc' : c' = read_program_to_mem bytes c)
    (hlen : 3584 < bytes.length % 65536) :
    c'.pc = 512
    ∧ c'.program_size = bytes.length % 65536
    ∧ c'.mem 4096 = bytes.getD 3584 0 % 256 := by
  subst hc'
  refine ⟨rfl, rfl, ?_⟩
  simp only [read_program_to_mem]
  rw [if_pos ⟨by omega, by omega⟩]

/-- Witness for C7 with 3585 copies of the byte 7. -/
theorem C7_witness :
    (3584 < (List.replicate 3585 7).length % 65536)
    ∧ ((read_program_to_mem (List.replicate 3585 7) initC8).pc = 512
      ∧ (read_program_to_mem (List.replicate 3585 7) initC8).program_size
          = (List.replicate 3585 7).length % 65536
      ∧ (read_program_to_mem (List.replicate 3585 7) initC8).mem 4096
          = (List.replicate 3585 (7 : Nat)).getD 3584 0 % 256) :=
  ⟨by rw [List.length_replicate]; decide,
   C7_theorem (List.replicate 3585 7) initC8 _ rfl (by rw [List.length_replicate]; decide)⟩

/-- Counterexample to claim C8 as stated: loading a program into a
machine whose cycle counter is 5 leaves the counter at 5 — the loader
does not reset the cycle count to 0. -/
theorem C8_counterexample :
    (read_program_to_mem [1, 2, 3] c8ex).cycle_count ≠ 0 := by
  decide

/-- Claim C8 (amended): a successful load copies the bytes to memory
starting at 0x200, sets `pc = 0x200` and records the (16-bit truncated)
program size, while leaving the registers, timers, stack, framebuffer,
key buffer, index register — and also the cycle count, which is not
reset — unchanged. -/
theorem C8_theorem (bytes : List Nat) (c c' : Chip8)
    (hc' : c' = read_program_to_mem bytes c) :
    c'.pc = 512
    ∧ c'.program_size = bytes.length % 65536
    ∧ (∀ k, k < bytes.length % 65536 → c'.mem (512 + k) = bytes.getD k 0 % 256)
    ∧ c'.v_reg = c.v_reg
    ∧ c'.delay_timer = c.delay_timer
    ∧ c'.sound_timer = c.sound_timer
    ∧ c'.stack = c.stack
    ∧ c'.sp = c.sp
    ∧ c'.pixels = c.pixels
    ∧ c'.keys = c.keys
    ∧ c'.i_addr_reg = c.i_addr_reg
    ∧ c'.cycle_count = c.cycle_count := by
  subst hc'
  refine ⟨rfl, rfl, ?_, rfl, rfl, rfl, rfl, rfl, rfl, rfl, rfl, rfl⟩
  intro k hk
  simp only [read_program_to_mem]
  rw [if_pos ⟨by omega, by omega⟩, show 512 + k - 512 = k from by omega]

/-- Witness for C8 on a fresh machine with nonzero cycle count, loading
three bytes. -/
theorem C8_witness :
    (read_program_to_mem [1, 2, 3] c8ex).pc = 512
    ∧ (read_program_to_mem [1, 2, 3] c8ex).program_size = [1, 2, 3].length % 65536
    ∧ (∀ k, k < [1, 2, 3].length % 65536 →
        (read_program_to_mem [1, 2, 3] c8ex).mem (512 + k) = [1, 2, 3].getD k 0 % 256)
    ∧ (read_program_to_mem [1, 2, 3] c8ex).v_reg = c8ex.v_reg
    ∧ (read_program_to_mem [1, 2, 3] c8ex).delay_timer = c8ex.delay_timer
    ∧ (read_program_to_mem [1, 2, 3] c8ex).sound_timer = c8ex.sound_timer
    ∧ (read_program_to_mem [1, 2, 3] c8ex).stack = c8ex.stack
    ∧ (read_program_to_mem [1, 2, 3] c8ex).sp = c8ex.sp
    ∧ (read_program_to_mem [1, 2, 3] c8ex).pixels = c8ex.pixels
    ∧ (read_program_to_mem [1, 2, 3] c8ex).keys = c8ex.keys
    ∧ (read_program_to_mem [1, 2, 3] c8ex).i_addr_reg = c8ex.i_addr_reg
    ∧ (read_program_to_mem [1, 2, 3] c8ex).cycle_count = c8ex.cycle_count :=
  C8_theorem [1, 2, 3] c8ex (read_program_to_mem [1, 2, 3] c8ex) rfl

/-- Counterexample to claim C9 as stated: `CXNN` consults the C library
PRNG, which is not part of the machine state — two steps from the
identical machine state (opcode `C0FF`) with different PRNG draws produce
different results. -/
theorem C9_counterexample :
    execute_cycle 0 (oneInstr 192 255) ≠ execute_cycle 1 (oneInstr 192 255) := by
  intro h
  exact absurd (congrArg (fun p => p.1.v_reg 0) h) (by decide)

/-- Claim C9 (amended): for every instruction whose high nibble is not
`0xC`, the step is a pure function of the machine state alone — the PRNG
input is irrelevant, and two executions from identical states produce
identical states and return values.  `CXNN` alone additionally depends on
the process-wide C library PRNG, which lies outside the machine state. -/
theorem C9_theorem (rng1 rng2 : Nat) (c : Chip8)
    (hb : c.mem c.pc < 256) (hC : c.mem c.pc / 16 ≠ 12) :
    execute_cycle rng1 c = execute_cycle rng2 c := by
  have hd : decode_instruction rng1 (c.mem c.pc) (c.mem (c.pc + 1)) c
      = decode_instruction rng2 (c.mem c.pc) (c.mem (c.pc + 1)) c := by
    unfold decode_instruction
    have h16 : c.mem c.pc / 16 < 16 := by omega
    obtain ⟨g, hg⟩ : ∃ g, c.mem c.pc / 16 = g := ⟨_, rfl⟩
    rw [hg] at h16 hC ⊢
    interval_cases g
    · rfl
    · rfl
    · rfl
    · rfl
    · rfl
    · rfl
    · rfl
    · rfl
    · rfl
    · rfl
    · rfl
    · rfl
    · exact absurd rfl hC
    · rfl
    · rfl
    · rfl
  unfold execute_cycle
  rw [hd]

/-- Witness for C9 on a fresh machine (its opcode `0x0000` is not in
group `0xC`): PRNG inputs 3 and 7 give identical steps. -/
theorem C9_witness :
    (initC8.mem initC8.pc < 256 ∧ initC8.mem initC8.pc / 16 ≠ 12)
    ∧ execute_cycle 3 initC8 = execute_cycle 7 initC8 :=
  ⟨by decide, C9_theorem 3 7 initC8 (by decide) (by decide)⟩
